import Mathlib

/-!
Verification of the storage-facing core of a distributed tracing backend.

Shallow embedding conventions:
* Go strings are embedded as `List Char` (`Str`); byte-wise lexicographic
  comparison of Go strings becomes character-wise lexicographic comparison.
* Go slices become Lean lists; in-place mutation of a span inside a trace
  becomes a pure function mapped over the list of spans.
* Machine integers (span ids, timestamps in nanoseconds) are embedded as
  `Nat` / `Int`; none of the verified code paths can overflow 64 bits on
  the inputs exercised here, so no modular reduction is needed.
* Fallible Go functions returning `(T, error)` become functions returning
  `T × Option E` or `Option T`.

The file is organised as definitions first, then theorems.
-/

namespace JaegerSpec

abbrev Str := List Char

def str (s : String) : Str := s.toList

/-- Character-wise lexicographic order on embedded strings (Go `<=` on
strings is byte-wise lexicographic; the keys compared here are ASCII,
where the two orders agree). -/
def keyLE : Str → Str → Bool
  | [], _ => true
  | _ :: _, [] => false
  | a :: as, b :: bs => if a < b then true else if b < a then false else keyLE as bs

/-! ### Data model (`model` package) -/

/-- Embedding of `model.KeyValue`: a typed key/value tag. Only the key participates in
the adjuster's decisions; the value is carried opaquely. -/
structure KeyValue where
  key : Str
  value : Str
deriving DecidableEq

/-- Embedding of `model.Process`: service name plus process-level tags. -/
structure Process where
  serviceName : Str
  tags : List KeyValue
deriving DecidableEq

/-- Embedding of `model.Span`: the fields relevant to the adjuster and the harness. -/
structure Span where
  traceIDHigh : Nat
  traceIDLow : Nat
  spanID : Nat
  operationName : Str
  startTime : Int
  duration : Int
  tags : List KeyValue
  process : Process
deriving DecidableEq

/-- Embedding of `model.Trace`: the collection of spans sharing a TraceID. -/
structure Trace where
  spans : List Span
deriving DecidableEq

/-- Ordering on tags used to state sortedness of `Process.Tags` by key. -/
def kvLE (a b : KeyValue) : Bool := keyLE a.key b.key

/-- Modelled from the spec: `model.KeyValues.Sort` (the jaeger model package
is not among the visible sources). Per the spec, after promotion
`Process.Tags` is stably sorted by Key; a stable merge sort under the
key order embeds it. -/
def sortKeyValues (kvs : List KeyValue) : List KeyValue :=
  kvs.mergeSort kvLE

/-! ### OTel tag adjuster (`adjuster` package) -/

/-- The five recognized OTel library keys (`otelLibraryKeys` in the adjuster
source; the `otelsemconv` constants spell out to these strings). -/
def otelLibraryKeys : List Str :=
  [str "telemetry.sdk.language", str "telemetry.sdk.name", str "telemetry.sdk.version",
   str "telemetry.distro.name", str "telemetry.distro.version"]

/-- The membership test `_, ok := otelLibraryKeys[tag.Key]`. -/
def isOTelLibraryKey (k : Str) : Bool := otelLibraryKeys.contains k

/-- Embedding of `adjustSpanTags` from `OTelTagAdjuster`: one pass over `span.Tags` that
appends every tag with a recognized key to `span.Process.Tags` and compacts
the remaining tags in place, preserving their order.  The in-place
compaction loop computes exactly the two order-preserving filters below. -/
def adjustSpanTags (s : Span) : Span :=
  { s with
    tags := s.tags.filter (fun t => !(isOTelLibraryKey t.key)),
    process := { s.process with
      tags := s.process.tags ++ s.tags.filter (fun t => isOTelLibraryKey t.key) } }

/-- The per-span body of the adjuster's trace loop:
`adjustSpanTags(span); model.KeyValues(span.Process.Tags).Sort()`. -/
def adjustAndSortSpan (s : Span) : Span :=
  let s1 := adjustSpanTags s
  { s1 with process := { s1.process with tags := sortKeyValues s1.process.tags } }

/-- Embedding of `OTelTagAdjuster`: adjusts every span of the trace and returns a nil
error (`Option.none`). -/
def OTelTagAdjuster (tr : Trace) : Trace × Option Str :=
  ({ spans := tr.spans.map adjustAndSortSpan }, none)

/-! ### Integration harness: skip list (`skipIfNeeded`)

The harness decides skipping with
`regexp.MatchString(regexp.QuoteMeta(pat), t.Name())`.  The fragment of Go
regular expressions needed to separate "regex matching" from "literal
matching after QuoteMeta" is literals, backslash escapes and the `.`
wildcard, with unanchored (match-anywhere) semantics, embedded below. -/

/-- A compiled regex token: a literal character or the `.` wildcard. -/
inductive RegexTok where
  | lit : Char → RegexTok
  | anyChar : RegexTok
deriving DecidableEq

/-- Compile a pattern: `\x` is the escaped literal `x`, `.` the wildcard,
anything else a literal (the fragment used by the skip-list model). -/
def regexTokens : Str → List RegexTok
  | [] => []
  | '\\' :: c :: rest => .lit c :: regexTokens rest
  | '\\' :: [] => []
  | '.' :: rest => .anyChar :: regexTokens rest
  | c :: rest => .lit c :: regexTokens rest

def tokMatches : RegexTok → Char → Bool
  | .lit c, d => c == d
  | .anyChar, _ => true

/-- Anchored match of the token list against a leading segment of `s`. -/
def matchHere : List RegexTok → Str → Bool
  | [], _ => true
  | _ :: _, [] => false
  | t :: ts, c :: cs => tokMatches t c && matchHere ts cs

/-- Unanchored match, as Go `regexp.MatchString`: the pattern may match at
any position. -/
def matchToks (ts : List RegexTok) : Str → Bool
  | [] => matchHere ts []
  | c :: cs => matchHere ts (c :: cs) || matchToks ts cs

def regexMatchString (pat s : Str) : Bool := matchToks (regexTokens pat) s

/-- The characters Go `regexp.QuoteMeta` escapes. -/
def regexSpecialChars : Str :=
  ['\\', '.', '+', '*', '?', '(', ')', '|', '[', ']', Char.ofNat 123, Char.ofNat 125, '^', '$']

/-- Go `regexp.QuoteMeta`: prefix every special character with a backslash. -/
def quoteMeta : Str → Str
  | [] => []
  | c :: rest => (if regexSpecialChars.contains c then ['\\', c] else [c]) ++ quoteMeta rest

/-- Embedding of `skipIfNeeded`: the harness matches the QuoteMeta-escaped pattern, not
the pattern itself, against the test name. -/
def skipDecision (pat name : Str) : Bool := regexMatchString (quoteMeta pat) name

/-! ### Integration harness: waiting loop (`waitForCondition`)

`waitForCondition` is embedded as a function of the sequence of predicate
outcomes (`p i` is the result of the i-th predicate call), instrumented
with an event trace recording predicate calls and 1-second sleeps, so that
the order of calls and sleeps is part of the model. -/

/-- The `iterations` constant of the harness. -/
def iterations : Nat := 100

inductive WaitEvent where
  | call : Nat → Bool → WaitEvent
  | sleepSec : WaitEvent
deriving DecidableEq

/-- The loop of `waitForCondition`:
`for i := 0; i < iterations; i++ { if predicate() { return true }; sleep 1s }`
followed by `return predicate()`.  `fuel` is the number of loop iterations
left; the final `return predicate()` is the fuel-0 case. -/
def waitFrom (p : Nat → Bool) : Nat → Nat → Bool × List WaitEvent
  | 0, i => (p i, [.call i (p i)])
  | fuel + 1, i =>
    if p i then (true, [.call i true])
    else
      let r := waitFrom p fuel (i + 1)
      (r.1, .call i false :: .sleepSec :: r.2)

def waitForCondition (p : Nat → Bool) : Bool × List WaitEvent := waitFrom p iterations 0

/-- Defined from the claim's words, for comparison with the source: "polls
up to 100 iterations with 1-second sleeps, calling the predicate after
each sleep and then one final time", stopping at the first call returning
true. -/
def waitSpecFrom (p : Nat → Bool) : Nat → Nat → Bool × List WaitEvent
  | 0, i => (p i, [.call i (p i)])
  | fuel + 1, i =>
    if p i then (true, [.sleepSec, .call i true])
    else
      let r := waitSpecFrom p fuel (i + 1)
      (r.1, .sleepSec :: .call i false :: r.2)

def waitForConditionSpec (p : Nat → Bool) : Bool × List WaitEvent := waitSpecFrom p iterations 0

/-- First index at which the loop stops: the first of the `fuel` loop
iterations with `p` true, else the index of the final call. -/
def stopFrom (p : Nat → Bool) : Nat → Nat → Nat
  | 0, i => i
  | fuel + 1, i => if p i then i else stopFrom p fuel (i + 1)

def stopIndex (p : Nat → Bool) : Nat := stopFrom p iterations 0

/-- Trace of `n` failed polls starting at index `i`: each predicate call
comes first, its 1-second sleep after it. -/
def failTrace : Nat → Nat → List WaitEvent
  | _, 0 => []
  | i, n + 1 => .call i false :: .sleepSec :: failTrace (i + 1) n

/-! ### Integration harness: large trace construction -/

/-- Go `time.Second` in nanoseconds; `Span.startTime` is in nanoseconds. -/
def nsPerSecond : Int := 1000000000

/-- The span count of the large-trace test. -/
def largeTraceSpanCount : Nat := 10008

/-- Embedding of `loadParseAndWriteLargeTrace`: keeps the first fixture span unchanged
at index 0 and, for `i` from 1 to 10007, appends a copy of it with
`SpanID = i` and `StartTime` shifted by `(i+1)` seconds.  (On an empty
fixture the Go code would panic indexing `Spans[0]`; the embedding returns
the fixture unchanged, and all statements below assume a first span.) -/
def loadParseAndWriteLargeTrace (fixture : Trace) : Trace :=
  match fixture.spans with
  | [] => fixture
  | span :: _ =>
    { spans := span :: (List.range' 1 (largeTraceSpanCount - 1)).map (fun i =>
        { span with
          spanID := i,
          startTime := span.startTime + nsPerSecond * (Int.ofNat i + 1) }) }

/-- Defined from the claim's words, for comparison with the source: "spans
are the first fixture span cloned with StartTimes shifted by +i seconds
and SpanIDs set to i for every i in [0,10008)". -/
def largeTraceClaimed (fixture : Trace) : Trace :=
  match fixture.spans with
  | [] => fixture
  | span :: _ =>
    { spans := (List.range' 0 largeTraceSpanCount).map (fun i =>
        { span with
          spanID := i,
          startTime := span.startTime + nsPerSecond * Int.ofNat i }) }

/-- The success condition polled by `testGetLargeSpan`: the read-back trace
has as many spans as the written one. -/
def testGetLargeSpanCondition (expected actual : Trace) : Bool :=
  actual.spans.length == expected.spans.length

/-! ### Sampling store (`testGetLatestProbability`) -/

/-- One per-host snapshot written by `InsertProbabilitiesAndQPS`;
probability and QPS maps are embedded as association lists
service → operation → value. -/
structure ProbabilitySnapshot where
  hostname : Str
  probabilities : List (Str × List (Str × Rat))
  qps : List (Str × List (Str × Rat))
deriving DecidableEq

/-- Modelled from the spec: the sampling store (whose backend
implementations are not among the visible sources) keeps an append-only
log of per-host snapshots; `InsertProbabilitiesAndQPS` appends one
snapshot, so later inserts are more recent. -/
def insertProbabilitiesAndQPS (store : List ProbabilitySnapshot) (hostname : Str)
    (probabilities qps : List (Str × List (Str × Rat))) : List ProbabilitySnapshot :=
  store ++ [{ hostname := hostname, probabilities := probabilities, qps := qps }]

/-- Modelled from the spec: `GetLatestProbabilities` returns the
probabilities of the most recent snapshot across all hosts, wholesale,
never merging snapshots. -/
def getLatestProbabilities (store : List ProbabilitySnapshot) : List (Str × List (Str × Rat)) :=
  ((store.getLast?).map ProbabilitySnapshot.probabilities).getD []

/-! ### Fixture date rewriting (`correctTime`) -/

/-- Boolean test that `pat` is a leading segment of `s`. -/
def isPre : Str → Str → Bool
  | [], _ => true
  | _ :: _, [] => false
  | a :: as, b :: bs => a == b && isPre as bs

/-- Go `strings.ReplaceAll(s, pat, rep)` for a non-empty pattern: scan left
to right; at a position where `pat` matches, emit `rep` and skip the
match, otherwise emit the character.  (The call sites only use the
non-empty date literals; the empty-pattern insertion behavior of
`strings.Replace` is not modelled.) -/
def replaceAll (pat rep : Str) : Str → Str
  | [] => []
  | c :: rest =>
    if isPre pat (c :: rest) then rep ++ replaceAll pat rep (rest.drop (pat.length - 1))
    else c :: replaceAll pat rep rest
termination_by s => s.length
decreasing_by
  all_goals simp only [List.length_drop, List.length_cons]
  all_goals omega

/-- Prepend a character to the first segment of a segment list. -/
def consHead (c : Char) : List Str → List Str
  | [] => [[c]]
  | ch :: chs => (c :: ch) :: chs

/-- The segments of `s` between the leftmost non-overlapping occurrences of
`pat`, following the same scan as `replaceAll`:
`s = joinWith pat (chunks pat s)`. -/
def chunks (pat : Str) : Str → List Str
  | [] => [[]]
  | c :: rest =>
    if isPre pat (c :: rest) then [] :: chunks pat (rest.drop (pat.length - 1))
    else consHead c (chunks pat rest)
termination_by s => s.length
decreasing_by
  all_goals simp only [List.length_drop, List.length_cons]
  all_goals omega

/-- Interleave a separator between segments. -/
def joinWith (sep : Str) : List Str → Str
  | [] => []
  | [c] => c
  | c :: cs => c ++ sep ++ joinWith sep cs

/-- The pattern `pat` occurs somewhere inside `s`. -/
def occursIn (pat s : Str) : Prop := ∃ a b, s = a ++ pat ++ b

def p26 : Str := str "2017-01-26"

def p25 : Str := str "2017-01-25"

/-- Embedding of `correctTime`: textual date rewriting on the raw fixture bytes before
parsing.  The two replacement strings are parameters standing for
`now.AddDate(0,0,-1).Format("2006-01-02")` (yesterday, `YYYY-MM-DD`) and
the same for two days ago; the Go `time` clock and formatter are outside
the embedding. -/
def correctTime (yesterday twoDaysAgo : Str) (json : Str) : Str :=
  replaceAll p25 twoDaysAgo (replaceAll p26 yesterday json)

/-! ### TLS cipher suite lookup (`tlscfg`) -/

/-- The name → ID table built by `allCiphers()` from Go
`crypto/tls.CipherSuites()` (the secure suites of the standard library). -/
def allCiphers : List (Str × Nat) :=
  [(str "TLS_RSA_WITH_AES_128_CBC_SHA", 0x002f),
   (str "TLS_RSA_WITH_AES_256_CBC_SHA", 0x0035),
   (str "TLS_RSA_WITH_AES_128_GCM_SHA256", 0x009c),
   (str "TLS_RSA_WITH_AES_256_GCM_SHA384", 0x009d),
   (str "TLS_AES_128_GCM_SHA256", 0x1301),
   (str "TLS_AES_256_GCM_SHA384", 0x1302),
   (str "TLS_CHACHA20_POLY1305_SHA256", 0x1303),
   (str "TLS_ECDHE_ECDSA_WITH_AES_128_CBC_SHA", 0xc009),
   (str "TLS_ECDHE_ECDSA_WITH_AES_256_CBC_SHA", 0xc00a),
   (str "TLS_ECDHE_RSA_WITH_AES_128_CBC_SHA", 0xc013),
   (str "TLS_ECDHE_RSA_WITH_AES_256_CBC_SHA", 0xc014),
   (str "TLS_ECDHE_ECDSA_WITH_AES_128_GCM_SHA256", 0xc02b),
   (str "TLS_ECDHE_ECDSA_WITH_AES_256_GCM_SHA384", 0xc02c),
   (str "TLS_ECDHE_RSA_WITH_AES_128_GCM_SHA256", 0xc02f),
   (str "TLS_ECDHE_RSA_WITH_AES_256_GCM_SHA384", 0xc030),
   (str "TLS_ECDHE_RSA_WITH_CHACHA20_POLY1305_SHA256", 0xcca8),
   (str "TLS_ECDHE_ECDSA_WITH_CHACHA20_POLY1305_SHA256", 0xcca9)]

/-- The map lookup `possibleCiphers[cipher]`. -/
def lookupCipher (name : Str) : Option Nat :=
  (allCiphers.find? (fun e => e.1 == name)).map (fun e => e.2)

/-- The accumulation loop of `CipherSuiteNamesToIDs`: look each name up in
order, return nil (`none`) at the first unknown name. -/
def cipherLoop : List Str → List Nat → Option (List Nat)
  | [], acc => some acc
  | n :: rest, acc =>
    match lookupCipher n with
    | some id => cipherLoop rest (acc ++ [id])
    | none => none

/-- Embedding of `CipherSuiteNamesToIDs`: ids of the named cipher suites, in input
order; `none` stands for Go's `(nil, error)` return. -/
def CipherSuiteNamesToIDs (cipherNames : List Str) : Option (List Nat) :=
  cipherLoop cipherNames []

/-! ### Concrete values used by witnesses and counterexamples -/

/-- The span of the spec's "Adjuster promotion" scenario. -/
def exampleSpan : Span :=
  { traceIDHigh := 0, traceIDLow := 1, spanID := 2, operationName := str "example-operation-1",
    startTime := 0, duration := 5,
    tags := [{ key := str "http.method", value := str "GET" },
             { key := str "telemetry.sdk.name", value := str "x" },
             { key := str "telemetry.sdk.version", value := str "1.2" },
             { key := str "db.system", value := str "pg" }],
    process := { serviceName := str "example-service-1", tags := [] } }

def exampleTrace : Trace := { spans := [exampleSpan] }

/-- A concrete one-span fixture for the large-trace test. -/
def largeFixtureSpan : Span :=
  { traceIDHigh := 0, traceIDLow := 11, spanID := 42, operationName := str "example-operation-1",
    startTime := 0, duration := 1,
    tags := [], process := { serviceName := str "example-service-1", tags := [] } }

def largeFixtureTrace : Trace := { spans := [largeFixtureSpan] }

/-! ## Theorems -/

theorem keyLE_trans : ∀ a b c : Str, keyLE a b = true → keyLE b c = true → keyLE a c = true := by
  intro a
  induction a with
  | nil => intro b c _ _; rfl
  | cons x xs ih =>
    intro b c hab hbc
    cases b with
    | nil => exact absurd hab (by simp [keyLE])
    | cons y ys =>
      cases c with
      | nil => exact absurd hbc (by simp [keyLE])
      | cons z zs =>
        simp only [keyLE] at hab hbc ⊢
        rcases lt_trichotomy x y with hxy | hxy | hxy
        · rcases lt_trichotomy y z with hyz | hyz | hyz
          · rw [if_pos (lt_trans hxy hyz)]
          · subst hyz; rw [if_pos hxy]
          · rw [if_neg (lt_asymm hyz), if_pos hyz] at hbc
            exact absurd hbc (by simp)
        · subst hxy
          rw [if_neg (lt_irrefl x), if_neg (lt_irrefl x)] at hab
          rcases lt_trichotomy x z with hyz | hyz | hyz
          · rw [if_pos hyz]
          · subst hyz
            rw [if_neg (lt_irrefl x), if_neg (lt_irrefl x)] at hbc ⊢
            exact ih ys zs hab hbc
          · rw [if_neg (lt_asymm hyz), if_pos hyz] at hbc
            exact absurd hbc (by simp)
        · rw [if_neg (lt_asymm hxy), if_pos hxy] at hab
          exact absurd hab (by simp)

theorem keyLE_total : ∀ a b : Str, (keyLE a b || keyLE b a) = true := by
  intro a
  induction a with
  | nil => intro b; rfl
  | cons x xs ih =>
    intro b
    cases b with
    | nil => rfl
    | cons y ys =>
      simp only [keyLE]
      rcases lt_trichotomy x y with hxy | hxy | hxy
      · rw [if_pos hxy]; rfl
      · subst hxy
        rw [if_neg (lt_irrefl x), if_neg (lt_irrefl x), if_neg (lt_irrefl x),
          if_neg (lt_irrefl x)]
        exact ih ys
      · rw [if_neg (lt_asymm hxy), if_pos hxy, if_pos hxy]
        simp

theorem kvLE_trans : ∀ a b c : KeyValue, kvLE a b = true → kvLE b c = true → kvLE a c = true := by
  intro a b c hab hbc
  exact keyLE_trans a.key b.key c.key hab hbc

theorem kvLE_total : ∀ a b : KeyValue, (kvLE a b || kvLE b a) = true := by
  intro a b
  exact keyLE_total a.key b.key

theorem forall₂_map_self {α β : Type} (R : α → β → Prop) (f : α → β) (l : List α)
    (h : ∀ a ∈ l, R a (f a)) : List.Forall₂ R l (l.map f) := by
  induction l with
  | nil => simp
  | cons x xs ih =>
    simp only [List.map_cons]
    exact List.Forall₂.cons (h x (by simp)) (ih fun a ha => h a (by simp [ha]))

theorem filter_not_filter_self {α : Type} (p : α → Bool) (l : List α) :
    (l.filter fun a => !(p a)).filter p = [] := by
  induction l with
  | nil => rfl
  | cons x xs ih => by_cases h : p x <;> simp [List.filter_cons, h, ih]

theorem filter_not_idem {α : Type} (p : α → Bool) (l : List α) :
    (l.filter fun a => !(p a)).filter (fun a => !(p a)) = l.filter fun a => !(p a) := by
  rw [List.filter_filter]
  simp

theorem count_filter_eq {α : Type} [DecidableEq α] (p : α → Bool) (t : α) (l : List α) :
    List.count t (l.filter p) = if p t then List.count t l else 0 := by
  induction l with
  | nil => simp
  | cons x xs ih =>
    by_cases hpx : p x
    · rw [List.filter_cons_of_pos hpx, List.count_cons, List.count_cons, ih]
      by_cases hxt : x = t
      · subst hxt; simp [hpx]
      · simp [hxt]
    · rw [List.filter_cons_of_neg hpx, List.count_cons, ih]
      by_cases hxt : x = t
      · subst hxt; simp [hpx]
      · simp [hxt]

theorem length_filter_add {α : Type} (p : α → Bool) (l : List α) :
    (l.filter p).length + (l.filter fun a => !(p a)).length = l.length := by
  induction l with
  | nil => rfl
  | cons x xs ih => by_cases h : p x <;> simp [List.filter_cons, h] <;> omega

theorem sortKeyValues_sorted (l : List KeyValue) :
    List.Pairwise (fun a b => kvLE a b = true) (sortKeyValues l) :=
  List.sorted_mergeSort kvLE_trans kvLE_total l

theorem sortKeyValues_perm (l : List KeyValue) : (sortKeyValues l).Perm l :=
  List.mergeSort_perm l kvLE

theorem sortKeyValues_of_sorted {l : List KeyValue}
    (h : List.Pairwise (fun a b => kvLE a b = true) l) : sortKeyValues l = l :=
  List.mergeSort_of_sorted h

theorem adjustAndSortSpan_tags (s : Span) :
    (adjustAndSortSpan s).tags = s.tags.filter (fun t => !(isOTelLibraryKey t.key)) := rfl

theorem adjustAndSortSpan_process_tags (s : Span) :
    (adjustAndSortSpan s).process.tags =
      sortKeyValues (s.process.tags ++ s.tags.filter (fun t => isOTelLibraryKey t.key)) := rfl

theorem adjustAndSortSpan_idem (s : Span) :
    adjustAndSortSpan (adjustAndSortSpan s) = adjustAndSortSpan s := by
  obtain ⟨a, b, c, d, e, f, tg, sn, pt⟩ := s
  simp only [adjustAndSortSpan, adjustSpanTags, Span.mk.injEq, Process.mk.injEq,
    and_true, true_and]
  refine ⟨?_, ?_⟩
  · exact filter_not_idem _ tg
  · rw [filter_not_filter_self, List.append_nil]
    exact sortKeyValues_of_sorted (sortKeyValues_sorted _)

/-- Claim C1: after the OTel-tag adjuster runs, no span-level tag has a key
in the telemetry key set; every telemetry tag originally in `span.Tags`
appears in `span.Process.Tags`; the kept tags preserve their original
relative order (they form a sublist of the original tags); and
`Process.Tags` is sorted ascending by key. -/
theorem c1_otel_tag_relocation (tr : Trace) :
    List.Forall₂ (fun s s1 =>
      (∀ t ∈ s1.tags, isOTelLibraryKey t.key = false)
      ∧ (∀ t ∈ s.tags, isOTelLibraryKey t.key = true → t ∈ s1.process.tags)
      ∧ s1.tags.Sublist s.tags
      ∧ List.Pairwise (fun a b => kvLE a b = true) s1.process.tags)
      tr.spans (OTelTagAdjuster tr).1.spans := by
  apply forall₂_map_self
  intro s _
  refine ⟨?_, ?_, ?_, ?_⟩
  · intro t ht
    rw [adjustAndSortSpan_tags] at ht
    have := (List.mem_filter.mp ht).2
    simpa using this
  · intro t ht hk
    rw [adjustAndSortSpan_process_tags]
    rw [(sortKeyValues_perm _).mem_iff]
    exact List.mem_append_right _ (List.mem_filter.mpr ⟨ht, hk⟩)
  · rw [adjustAndSortSpan_tags]
    exact List.filter_sublist s.tags
  · rw [adjustAndSortSpan_process_tags]
    exact sortKeyValues_sorted _

/-- Witness for C1 at the spec's "Adjuster promotion" scenario span. -/
theorem c1_otel_tag_relocation_witness :
    List.Forall₂ (fun s s1 =>
      (∀ t ∈ s1.tags, isOTelLibraryKey t.key = false)
      ∧ (∀ t ∈ s.tags, isOTelLibraryKey t.key = true → t ∈ s1.process.tags)
      ∧ s1.tags.Sublist s.tags
      ∧ List.Pairwise (fun a b => kvLE a b = true) s1.process.tags)
      exampleTrace.spans (OTelTagAdjuster exampleTrace).1.spans :=
  c1_otel_tag_relocation exampleTrace

/-- Claim C2: the OTel-tag adjuster is idempotent — applying it to the trace
it produced yields the same trace (and the same nil error). -/
theorem c2_adjuster_idempotent (tr : Trace) :
    OTelTagAdjuster (OTelTagAdjuster tr).1 = OTelTagAdjuster tr := by
  simp only [OTelTagAdjuster, List.map_map, Function.comp_def]
  rw [List.map_congr_left fun s _ => adjustAndSortSpan_idem s]

/-- Witness for C2 at the spec's "Adjuster promotion" scenario trace. -/
theorem c2_adjuster_idempotent_witness :
    OTelTagAdjuster (OTelTagAdjuster exampleTrace).1 = OTelTagAdjuster exampleTrace :=
  c2_adjuster_idempotent exampleTrace

/-- Claim C9: the adjuster cannot fail and never drops a span — the error
component is always `none`, the span count is preserved, and each output
span keeps the identifying fields of the corresponding input span. -/
theorem c9_never_fails_never_drops (tr : Trace) :
    (OTelTagAdjuster tr).2 = none
    ∧ (OTelTagAdjuster tr).1.spans.length = tr.spans.length
    ∧ List.Forall₂ (fun s s1 =>
        s1.traceIDHigh = s.traceIDHigh ∧ s1.traceIDLow = s.traceIDLow
        ∧ s1.spanID = s.spanID ∧ s1.operationName = s.operationName
        ∧ s1.startTime = s.startTime ∧ s1.duration = s.duration
        ∧ s1.process.serviceName = s.process.serviceName)
      tr.spans (OTelTagAdjuster tr).1.spans := by
  refine ⟨rfl, by simp [OTelTagAdjuster], ?_⟩
  apply forall₂_map_self
  intro s _
  exact ⟨rfl, rfl, rfl, rfl, rfl, rfl, rfl⟩

/-- Witness for C9 at the spec's "Adjuster promotion" scenario trace. -/
theorem c9_never_fails_never_drops_witness :
    (OTelTagAdjuster exampleTrace).2 = none
    ∧ (OTelTagAdjuster exampleTrace).1.spans.length = exampleTrace.spans.length
    ∧ List.Forall₂ (fun s s1 =>
        s1.traceIDHigh = s.traceIDHigh ∧ s1.traceIDLow = s.traceIDLow
        ∧ s1.spanID = s.spanID ∧ s1.operationName = s.operationName
        ∧ s1.startTime = s.startTime ∧ s1.duration = s.duration
        ∧ s1.process.serviceName = s.process.serviceName)
      exampleTrace.spans (OTelTagAdjuster exampleTrace).1.spans :=
  c9_never_fails_never_drops exampleTrace

/-- Claim C10: the adjuster neither loses nor duplicates a span-level tag —
per span, each tag occurrence either stays in `span.Tags` (key not in the
telemetry set) or moves to `span.Process.Tags` (key in the set), with
multiplicities preserved, and kept + promoted tag counts add up to the
original count. -/
theorem c10_tag_conservation (tr : Trace) :
    List.Forall₂ (fun s s1 =>
      (∀ t : KeyValue, List.count t s1.tags =
        if isOTelLibraryKey t.key then 0 else List.count t s.tags)
      ∧ (∀ t : KeyValue, List.count t s1.process.tags =
        List.count t s.process.tags + (if isOTelLibraryKey t.key then List.count t s.tags else 0))
      ∧ s1.tags.length + s1.process.tags.length = s.tags.length + s.process.tags.length)
      tr.spans (OTelTagAdjuster tr).1.spans := by
  apply forall₂_map_self
  intro s _
  refine ⟨?_, ?_, ?_⟩
  · intro t
    rw [adjustAndSortSpan_tags, count_filter_eq]
    by_cases h : isOTelLibraryKey t.key <;> simp [h]
  · intro t
    rw [adjustAndSortSpan_process_tags, (sortKeyValues_perm _).count_eq,
      List.count_append, count_filter_eq]
  · rw [adjustAndSortSpan_tags, adjustAndSortSpan_process_tags,
      (sortKeyValues_perm _).length_eq, List.length_append]
    have := length_filter_add (fun t => isOTelLibraryKey t.key) s.tags
    omega

/-- Witness for C10 at the spec's "Adjuster promotion" scenario trace. -/
theorem c10_tag_conservation_witness :
    List.Forall₂ (fun s s1 =>
      (∀ t : KeyValue, List.count t s1.tags =
        if isOTelLibraryKey t.key then 0 else List.count t s.tags)
      ∧ (∀ t : KeyValue, List.count t s1.process.tags =
        List.count t s.process.tags + (if isOTelLibraryKey t.key then List.count t s.tags else 0))
      ∧ s1.tags.length + s1.process.tags.length = s.tags.length + s.process.tags.length)
      exampleTrace.spans (OTelTagAdjuster exampleTrace).1.spans :=
  c10_tag_conservation exampleTrace

/-- Claim C3 (code bug): the harness's own comment documents `SkipList` as
"it can be regex too", and the spec says skipping is regex matching of the
pattern against the test name; but `skipIfNeeded` escapes the pattern with
`regexp.QuoteMeta` first, so the pattern only matches literally.  At
pattern `"a.c"` and test name `"abc"`, regex matching succeeds while the
code does not skip. -/
theorem c3_skiplist_quotemeta_divergence :
    skipDecision (str "a.c") (str "abc") = false
    ∧ regexMatchString (str "a.c") (str "abc") = true := by
  exact ⟨rfl, rfl⟩

theorem stopFrom_ge (p : Nat → Bool) : ∀ fuel i, i ≤ stopFrom p fuel i := by
  intro fuel
  induction fuel with
  | zero => intro i; exact le_refl i
  | succ n ih =>
    intro i
    simp only [stopFrom]
    by_cases h : p i
    · rw [if_pos h]
    · rw [if_neg h]
      exact le_trans (Nat.le_succ i) (ih (i + 1))

theorem stopFrom_le (p : Nat → Bool) : ∀ fuel i, stopFrom p fuel i ≤ i + fuel := by
  intro fuel
  induction fuel with
  | zero => intro i; simp [stopFrom]
  | succ n ih =>
    intro i
    simp only [stopFrom]
    by_cases h : p i
    · rw [if_pos h]; omega
    · rw [if_neg h]
      have := ih (i + 1)
      omega

theorem stopFrom_false (p : Nat → Bool) :
    ∀ fuel i j, i ≤ j → j < stopFrom p fuel i → p j = false := by
  intro fuel
  induction fuel with
  | zero => intro i j hij hlt; simp [stopFrom] at hlt; omega
  | succ n ih =>
    intro i j hij hlt
    simp only [stopFrom] at hlt
    by_cases h : p i
    · rw [if_pos h] at hlt; omega
    · rw [if_neg h] at hlt
      rcases Nat.eq_or_lt_of_le hij with heq | hgt
      · subst heq; simpa using h
      · exact ih (i + 1) j hgt hlt

theorem stopFrom_hit (p : Nat → Bool) :
    ∀ fuel i, stopFrom p fuel i < i + fuel → p (stopFrom p fuel i) = true := by
  intro fuel
  induction fuel with
  | zero => intro i h; simp [stopFrom] at h
  | succ n ih =>
    intro i h
    simp only [stopFrom] at h ⊢
    by_cases hp : p i
    · rw [if_pos hp]; exact hp
    · rw [if_neg hp] at h ⊢
      exact ih (i + 1) (by omega)

theorem waitFrom_eq (p : Nat → Bool) :
    ∀ fuel i, waitFrom p fuel i =
      (p (stopFrom p fuel i),
        failTrace i (stopFrom p fuel i - i)
          ++ [.call (stopFrom p fuel i) (p (stopFrom p fuel i))]) := by
  intro fuel
  induction fuel with
  | zero => intro i; simp [waitFrom, stopFrom, failTrace]
  | succ n ih =>
    intro i
    by_cases h : p i
    · simp [waitFrom, stopFrom, h, failTrace]
    · have hge := stopFrom_ge p n (i + 1)
      have hstop : stopFrom p (n + 1) i = stopFrom p n (i + 1) := by
        simp only [stopFrom]; rw [if_neg h]
      have hsub : stopFrom p n (i + 1) - i = (stopFrom p n (i + 1) - (i + 1)) + 1 := by
        omega
      simp only [waitFrom, ih (i + 1), hstop]
      rw [if_neg h, hsub]
      simp [failTrace]

/-- Claim C4 counterexample: the claim's schedule ("calling the predicate
after each sleep and then one final time", embedded verbatim as
`waitForConditionSpec`) differs from the source: with a predicate that is
true immediately, the code calls the predicate and returns before any
sleep, while the claimed schedule sleeps once first. -/
theorem c4_wait_schedule_counterexample :
    waitForCondition (fun _ => true) ≠ waitForConditionSpec (fun _ => true)
    ∧ waitForCondition (fun _ => true) = (true, [.call 0 true])
    ∧ waitForConditionSpec (fun _ => true) = (true, [.sleepSec, .call 0 true]) := by
  refine ⟨?_, rfl, rfl⟩
  decide

/-- Claim C4 (amended): the waiting loop polls up to 100 iterations,
calling the predicate at the start of each iteration and sleeping one
second after each failed call, then makes one final call after the last
sleep; it stops at the first call returning true, and returns true iff one
of the (up to 101) calls returns true. -/
theorem c4_wait_loop_amended (p : Nat → Bool) :
    waitForCondition p =
      (p (stopIndex p),
        failTrace 0 (stopIndex p) ++ [.call (stopIndex p) (p (stopIndex p))])
    ∧ stopIndex p ≤ iterations
    ∧ (∀ j, j < stopIndex p → p j = false)
    ∧ ((waitForCondition p).1 = true ↔ ∃ i, i ≤ iterations ∧ p i = true) := by
  have hmain : waitForCondition p =
      (p (stopIndex p),
        failTrace 0 (stopIndex p) ++ [.call (stopIndex p) (p (stopIndex p))]) := by
    have := waitFrom_eq p iterations 0
    simpa [waitForCondition, stopIndex] using this
  have hle : stopIndex p ≤ iterations := by
    have := stopFrom_le p iterations 0
    simpa [stopIndex] using this
  have hres : (waitForCondition p).1 = p (stopIndex p) := by rw [hmain]
  refine ⟨hmain, hle, ?_, ?_⟩
  · intro j hj
    exact stopFrom_false p iterations 0 j (Nat.zero_le j) hj
  · rw [hres]
    constructor
    · intro h
      exact ⟨stopIndex p, hle, h⟩
    · rintro ⟨i, hi, hpi⟩
      by_contra hfalse
      have hpk : p (stopIndex p) = false := by
        cases hk : p (stopIndex p) with
        | true => exact absurd hk hfalse
        | false => rfl
      have hk100 : stopIndex p = iterations := by
        rcases Nat.lt_or_ge (stopIndex p) iterations with hlt | hge2
        · have hhit := stopFrom_hit p iterations 0 (by simpa [stopIndex] using hlt)
          have : p (stopIndex p) = true := hhit
          rw [hpk] at this
          exact absurd this (by simp)
        · exact le_antisymm hle hge2
      rcases Nat.lt_or_ge i iterations with hilt | hige
      · have hjlt : i < stopIndex p := by rw [hk100]; exact hilt
        have hfj : p i = false := stopFrom_false p iterations 0 i (Nat.zero_le i) hjlt
        rw [hfj] at hpi
        exact Bool.noConfusion hpi
      · have hieq : i = iterations := le_antisymm hi hige
        subst hieq
        rw [← hk100, hpk] at hpi
        exact Bool.noConfusion hpi

/-- Witness for the amended C4 at a predicate that first succeeds on its
fourth call. -/
theorem c4_wait_loop_amended_witness :
    waitForCondition (fun i => i == 3) =
      ((fun i => i == 3 : Nat → Bool) (stopIndex (fun i => i == 3)),
        failTrace 0 (stopIndex (fun i => i == 3))
          ++ [.call (stopIndex (fun i => i == 3))
                ((fun i => i == 3 : Nat → Bool) (stopIndex (fun i => i == 3)))])
    ∧ ((waitForCondition (fun i => i == 3)).1 = true
        ↔ ∃ i, i ≤ iterations ∧ (fun i => i == 3 : Nat → Bool) i = true) :=
  ⟨(c4_wait_loop_amended (fun i => i == 3)).1,
   (c4_wait_loop_amended (fun i => i == 3)).2.2.2⟩

/-- Claim C5 counterexample: at a concrete one-span fixture, the claimed
construction (`largeTraceClaimed`, StartTime +i seconds and SpanID i for
all i ∈ [0,10008)) differs from the source construction: the source shifts
span 1 by 2 seconds, not 1, and leaves span 0's SpanID at the fixture
value 42 instead of setting it to 0. -/
theorem c5_large_trace_counterexample :
    (loadParseAndWriteLargeTrace largeFixtureTrace).spans.get? 1
      ≠ (largeTraceClaimed largeFixtureTrace).spans.get? 1
    ∧ ((loadParseAndWriteLargeTrace largeFixtureTrace).spans.get? 1).map Span.startTime
        = some (2 * nsPerSecond)
    ∧ (((largeTraceClaimed largeFixtureTrace).spans.get? 1).map Span.startTime
        = some (1 * nsPerSecond))
    ∧ (loadParseAndWriteLargeTrace largeFixtureTrace).spans.get? 0
      ≠ (largeTraceClaimed largeFixtureTrace).spans.get? 0
    ∧ ((loadParseAndWriteLargeTrace largeFixtureTrace).spans.get? 0).map Span.spanID = some 42
    ∧ ((largeTraceClaimed largeFixtureTrace).spans.get? 0).map Span.spanID = some 0 := by
  refine ⟨by decide, by decide, by decide, by decide, by decide, by decide⟩

/-- Claim C5 (amended): the large-trace test writes a trace whose span 0 is
the first fixture span unchanged and whose span i, for i ∈ [1,10008), is
that span cloned with SpanID i and StartTime shifted by +(i+1) seconds;
reading back is deemed successful exactly when the returned trace has all
10008 spans. -/
theorem c5_large_trace_amended (fixture : Trace) (sp : Span) (rest : List Span)
    (h : fixture.spans = sp :: rest) :
    (loadParseAndWriteLargeTrace fixture).spans.length = largeTraceSpanCount
    ∧ (loadParseAndWriteLargeTrace fixture).spans.get? 0 = some sp
    ∧ (∀ i, 1 ≤ i → i < largeTraceSpanCount →
        (loadParseAndWriteLargeTrace fixture).spans.get? i =
          some { sp with
                 spanID := i,
                 startTime := sp.startTime + nsPerSecond * (Int.ofNat i + 1) })
    ∧ (∀ actual : Trace,
        testGetLargeSpanCondition (loadParseAndWriteLargeTrace fixture) actual = true
          ↔ actual.spans.length = largeTraceSpanCount) := by
  have hl : loadParseAndWriteLargeTrace fixture =
      { spans := sp :: (List.range' 1 (largeTraceSpanCount - 1)).map (fun i =>
          { sp with
            spanID := i,
            startTime := sp.startTime + nsPerSecond * (Int.ofNat i + 1) }) } := by
    unfold loadParseAndWriteLargeTrace
    rw [h]
  have hlen : (loadParseAndWriteLargeTrace fixture).spans.length = largeTraceSpanCount := by
    rw [hl]
    simp only [List.length_cons, List.length_map, List.length_range']
    rfl
  refine ⟨hlen, by rw [hl]; rfl, ?_, ?_⟩
  · intro i h1 h2
    rcases i with _ | j
    · omega
    · rw [hl]
      have hj : j < largeTraceSpanCount - 1 := by
        simp only [largeTraceSpanCount] at h2 ⊢
        omega
      rw [show (sp :: (List.range' 1 (largeTraceSpanCount - 1)).map (fun i =>
          { sp with
            spanID := i,
            startTime := sp.startTime + nsPerSecond * (Int.ofNat i + 1) })).get? (j + 1) =
          ((List.range' 1 (largeTraceSpanCount - 1)).map (fun i =>
          { sp with
            spanID := i,
            startTime := sp.startTime + nsPerSecond * (Int.ofNat i + 1) })).get? j from rfl]
      rw [List.get?_map, List.get?_range' 1 1 hj]
      rw [show 1 + 1 * j = j + 1 from by omega]
      rfl
  · intro actual
    unfold testGetLargeSpanCondition
    rw [hlen]
    exact beq_iff_eq

/-- Witness for the amended C5 at the concrete one-span fixture. -/
theorem c5_large_trace_amended_witness :
    (loadParseAndWriteLargeTrace largeFixtureTrace).spans.length = largeTraceSpanCount
    ∧ (loadParseAndWriteLargeTrace largeFixtureTrace).spans.get? 0 = some largeFixtureSpan
    ∧ (∀ i, 1 ≤ i → i < largeTraceSpanCount →
        (loadParseAndWriteLargeTrace largeFixtureTrace).spans.get? i =
          some { largeFixtureSpan with
                 spanID := i,
                 startTime := largeFixtureSpan.startTime + nsPerSecond * (Int.ofNat i + 1) })
    ∧ (∀ actual : Trace,
        testGetLargeSpanCondition (loadParseAndWriteLargeTrace largeFixtureTrace) actual = true
          ↔ actual.spans.length = largeTraceSpanCount) :=
  c5_large_trace_amended largeFixtureTrace largeFixtureSpan [] rfl

/-- Claim C6: `GetLatestProbabilities` returns the probabilities of exactly
one snapshot — the most recent across all hosts — wholesale, never a
merge: after any insert the result is that snapshot's probabilities, and
in the harness's concrete scenario (host "newhostname1" with
new-srv3/op ↦ 0.123, then host "dell11eg843d" with new-srv/op ↦ 0.1) the
result is the entire second snapshot, with no entry for "new-srv3". -/
theorem c6_latest_probabilities_wholesale
    (store : List ProbabilitySnapshot) (hostname : Str)
    (probabilities qps : List (Str × List (Str × Rat))) :
    getLatestProbabilities (insertProbabilitiesAndQPS store hostname probabilities qps)
      = probabilities
    ∧ getLatestProbabilities
        (insertProbabilitiesAndQPS
          (insertProbabilitiesAndQPS [] (str "newhostname1")
            [(str "new-srv3", [(str "op", (123 : Rat)/1000)])]
            [(str "new-srv2", [(str "op", (11 : Rat))])])
          (str "dell11eg843d")
          [(str "new-srv", [(str "op", (1 : Rat)/10)])]
          [(str "new-srv", [(str "op", (4 : Rat))])])
      = [(str "new-srv", [(str "op", (1 : Rat)/10)])]
    ∧ List.find? (fun e => e.1 == str "new-srv3")
        (getLatestProbabilities
          (insertProbabilitiesAndQPS
            (insertProbabilitiesAndQPS [] (str "newhostname1")
              [(str "new-srv3", [(str "op", (123 : Rat)/1000)])]
              [(str "new-srv2", [(str "op", (11 : Rat))])])
            (str "dell11eg843d")
            [(str "new-srv", [(str "op", (1 : Rat)/10)])]
            [(str "new-srv", [(str "op", (4 : Rat))])])) = none := by
  refine ⟨?_, ?_, ?_⟩
  · unfold getLatestProbabilities insertProbabilitiesAndQPS
    rw [List.getLast?_concat]
    rfl
  · unfold getLatestProbabilities insertProbabilitiesAndQPS
    rw [List.getLast?_concat]
    rfl
  · unfold getLatestProbabilities insertProbabilitiesAndQPS
    rw [List.getLast?_concat]
    rfl

/-- Witness for C6 at a concrete single insert. -/
theorem c6_latest_probabilities_wholesale_witness :
    getLatestProbabilities
      (insertProbabilitiesAndQPS [] (str "hostA")
        [(str "svc", [(str "op", (1 : Rat)/2)])] []) = [(str "svc", [(str "op", (1 : Rat)/2)])] :=
  (c6_latest_probabilities_wholesale [] (str "hostA")
    [(str "svc", [(str "op", (1 : Rat)/2)])] []).1

theorem cipherLoop_all_known (names : List Str) :
    ∀ acc, (∀ n ∈ names, (lookupCipher n).isSome = true) →
      cipherLoop names acc = some (acc ++ names.map (fun n => (lookupCipher n).getD 0)) := by
  induction names with
  | nil => intro acc _; simp [cipherLoop]
  | cons n rest ih =>
    intro acc h
    obtain ⟨id, hid⟩ := Option.isSome_iff_exists.mp (h n (by simp))
    simp only [cipherLoop, hid]
    rw [ih (acc ++ [id]) (fun m hm => h m (by simp [hm]))]
    simp [hid]

theorem cipherLoop_unknown (names : List Str) :
    ∀ acc, (∃ n ∈ names, lookupCipher n = none) → cipherLoop names acc = none := by
  induction names with
  | nil => intro acc h; obtain ⟨n, hn, _⟩ := h; simp at hn
  | cons n rest ih =>
    intro acc h
    obtain ⟨m, hm, hnone⟩ := h
    rcases List.mem_cons.mp hm with heq | hmem
    · subst heq
      simp [cipherLoop, hnone]
    · cases hl : lookupCipher n with
      | none => simp [cipherLoop, hl]
      | some id =>
        simp only [cipherLoop, hl]
        exact ih (acc ++ [id]) ⟨m, hmem, hnone⟩

/-- Claim C8: `CipherSuiteNamesToIDs` maps an all-recognized name list to
the corresponding ids in input order with no error, returns nil plus an
error (`none`) whenever some name is unrecognized, and returns nil with no
error on the empty list. -/
theorem c8_cipher_suite_names_to_ids :
    CipherSuiteNamesToIDs [] = some []
    ∧ (∀ names : List Str, (∀ n ∈ names, (lookupCipher n).isSome = true) →
        CipherSuiteNamesToIDs names = some (names.map (fun n => (lookupCipher n).getD 0)))
    ∧ (∀ names : List Str, (∃ n ∈ names, lookupCipher n = none) →
        CipherSuiteNamesToIDs names = none) := by
  refine ⟨rfl, ?_, ?_⟩
  · intro names h
    unfold CipherSuiteNamesToIDs
    rw [cipherLoop_all_known names [] h]
    rfl
  · intro names h
    unfold CipherSuiteNamesToIDs
    exact cipherLoop_unknown names [] h

/-- Witness for C8: the two TLS 1.3 suites map to their ids in order, and
an invalid name yields nil plus an error. -/
theorem c8_cipher_suite_names_to_ids_witness :
    CipherSuiteNamesToIDs [str "TLS_AES_128_GCM_SHA256", str "TLS_AES_256_GCM_SHA384"]
      = some [0x1301, 0x1302]
    ∧ CipherSuiteNamesToIDs [str "TLS_INVALID_CIPHER_SUITE"] = none := by
  constructor
  · exact (c8_cipher_suite_names_to_ids.2.1
      [str "TLS_AES_128_GCM_SHA256", str "TLS_AES_256_GCM_SHA384"] (by decide)).trans (by decide)
  · exact c8_cipher_suite_names_to_ids.2.2 [str "TLS_INVALID_CIPHER_SUITE"]
      ⟨str "TLS_INVALID_CIPHER_SUITE", by decide, by decide⟩

theorem isPre_iff (p : Str) : ∀ s, isPre p s = true ↔ ∃ t, s = p ++ t := by
  induction p with
  | nil =>
    intro s
    simp [isPre]
  | cons a as ih =>
    intro s
    cases s with
    | nil => simp [isPre]
    | cons b bs =>
      simp only [isPre, Bool.and_eq_true, beq_iff_eq]
      constructor
      · rintro ⟨hab, h2⟩
        subst hab
        obtain ⟨t, ht⟩ := (ih bs).mp h2
        exact ⟨t, by rw [ht]; rfl⟩
      · rintro ⟨t, ht⟩
        rw [List.cons_append] at ht
        injection ht with h1 h2
        exact ⟨h1.symm, (ih bs).mpr ⟨t, h2⟩⟩

theorem isPre_decomp (pat : Str) (hp : pat ≠ []) (c : Char) (rest : Str)
    (h : isPre pat (c :: rest) = true) :
    c :: rest = pat ++ rest.drop (pat.length - 1) := by
  obtain ⟨t, ht⟩ := (isPre_iff pat (c :: rest)).mp h
  obtain ⟨n, hn⟩ : ∃ n, pat.length = n + 1 := by
    cases hq : pat.length with
    | zero => exact absurd (List.length_eq_zero.mp hq) hp
    | succ m => exact ⟨m, rfl⟩
  have hdt : rest.drop (pat.length - 1) = t := by
    have h2 := congrArg (List.drop pat.length) ht
    rw [List.drop_left] at h2
    rw [hn] at h2 ⊢
    simp only [Nat.add_sub_cancel]
    simpa [List.drop_succ_cons] using h2
  rw [hdt]
  exact ht

theorem chunks_ne_nil (pat s : Str) : chunks pat s ≠ [] := by
  cases s with
  | nil => simp [chunks]
  | cons c rest =>
    simp only [chunks]
    by_cases h : isPre pat (c :: rest) = true
    · rw [if_pos h]; simp
    · rw [if_neg h]
      cases chunks pat rest with
      | nil => simp [consHead]
      | cons ch chs => simp [consHead]

theorem joinWith_chunks (pat : Str) (hp : pat ≠ []) :
    ∀ s, joinWith pat (chunks pat s) = s := by
  refine chunks.induct pat (fun s => joinWith pat (chunks pat s) = s) ?_ ?_ ?_
  · simp [chunks, joinWith]
  · intro c rest h ih
    simp only [chunks]
    rw [if_pos h]
    cases hc : chunks pat (rest.drop (pat.length - 1)) with
    | nil => exact absurd hc (chunks_ne_nil pat _)
    | cons ch chs =>
      rw [hc] at ih
      simp only [joinWith, List.nil_append]
      rw [ih, isPre_decomp pat hp c rest h]
  · intro c rest h ih
    simp only [chunks]
    rw [if_neg h]
    cases hc : chunks pat rest with
    | nil => exact absurd hc (chunks_ne_nil pat _)
    | cons ch chs =>
      rw [hc] at ih
      simp only [consHead]
      cases chs with
      | nil =>
        simp only [joinWith] at ih ⊢
        rw [ih]
      | cons d ds =>
        simp only [joinWith] at ih ⊢
        rw [← ih]
        simp [List.cons_append]

theorem replaceAll_chunks (pat rep : Str) (hp : pat ≠ []) :
    ∀ s, replaceAll pat rep s = joinWith rep (chunks pat s) := by
  refine chunks.induct pat (fun s => replaceAll pat rep s = joinWith rep (chunks pat s)) ?_ ?_ ?_
  · simp [chunks, replaceAll, joinWith]
  · intro c rest h ih
    simp only [chunks, replaceAll]
    rw [if_pos h, if_pos h]
    cases hc : chunks pat (rest.drop (pat.length - 1)) with
    | nil => exact absurd hc (chunks_ne_nil pat _)
    | cons ch chs =>
      rw [hc] at ih
      simp only [joinWith, List.nil_append]
      rw [ih]
  · intro c rest h ih
    simp only [chunks, replaceAll]
    rw [if_neg h, if_neg h]
    cases hc : chunks pat rest with
    | nil => exact absurd hc (chunks_ne_nil pat _)
    | cons ch chs =>
      rw [hc] at ih
      simp only [consHead]
      cases chs with
      | nil =>
        simp only [joinWith] at ih ⊢
        rw [ih]
      | cons d ds =>
        simp only [joinWith] at ih ⊢
        rw [ih]
        simp [List.cons_append]

theorem joinWith_head_decomp (sep : Str) (ch : Str) (chs : List Str) :
    ∃ X, joinWith sep (ch :: chs) = ch ++ X := by
  cases chs with
  | nil => exact ⟨[], by simp [joinWith]⟩
  | cons d ds => exact ⟨sep ++ joinWith sep (d :: ds), by simp [joinWith, List.append_assoc]⟩

theorem chunks_no_occurrence (pat : Str) (hp : pat ≠ []) :
    ∀ s, ∀ ch ∈ chunks pat s, ¬ occursIn pat ch := by
  have hnil : ¬ occursIn pat [] := by
    rintro ⟨a, b, hab⟩
    have := congrArg List.length hab
    simp only [List.length_nil, List.length_append] at this
    have hlp : 0 < pat.length := List.length_pos.mpr hp
    omega
  refine chunks.induct pat (fun s => ∀ ch ∈ chunks pat s, ¬ occursIn pat ch) ?_ ?_ ?_
  · intro ch hch
    simp only [chunks, List.mem_singleton] at hch
    subst hch
    exact hnil
  · intro c rest h ih
    intro ch hch
    simp only [chunks] at hch
    rw [if_pos h] at hch
    rcases List.mem_cons.mp hch with heq | hmem
    · subst heq; exact hnil
    · exact ih ch hmem
  · intro c rest h ih
    intro x hx
    simp only [chunks] at hx
    rw [if_neg h] at hx
    cases hc : chunks pat rest with
    | nil => exact absurd hc (chunks_ne_nil pat _)
    | cons ch chs =>
      rw [hc] at hx
      simp only [consHead] at hx
      rcases List.mem_cons.mp hx with heq | hmem
      · subst heq
        rintro ⟨a, b, hab⟩
        cases a with
        | nil =>
          simp only [List.nil_append] at hab
          obtain ⟨X, hX⟩ := joinWith_head_decomp pat ch chs
          have hj : joinWith pat (chunks pat rest) = rest := joinWith_chunks pat hp rest
          rw [hc, hX] at hj
          have hpre : isPre pat (c :: rest) = true := by
            apply (isPre_iff pat _).mpr
            refine ⟨b ++ X, ?_⟩
            rw [← hj, ← List.append_assoc, ← hab]
            rfl
          exact h hpre
        | cons a0 a2 =>
          rw [List.cons_append, List.cons_append] at hab
          injection hab with h1 h2
          have : occursIn pat ch := ⟨a2, b, by rw [h2, List.append_assoc]⟩
          exact ih ch (by rw [hc]; exact List.mem_cons_self ch chs) this
      · exact ih x (by rw [hc]; exact List.mem_cons_of_mem ch hmem)

/-- Claim C7: fixture loading rewrites dates textually on the raw bytes
before parsing.  `chunks` decomposes a string along the leftmost
non-overlapping occurrences of a pattern; the theorem states that the raw
input is the chunk decomposition interleaved with `"2017-01-26"`, the
first rewrite replaces exactly those occurrences with the yesterday string
leaving every other byte (the chunks) unchanged, and the second rewrite
does the same to the result with `"2017-01-25"` and the two-days-ago
string; no chunk contains a pattern occurrence.  The two replacement
strings are parameters standing for the `YYYY-MM-DD`-formatted UTC dates
(the Go clock is outside the embedding). -/
theorem c7_correct_time_textual (yesterday twoDaysAgo s : Str) :
    joinWith p26 (chunks p26 s) = s
    ∧ replaceAll p26 yesterday s = joinWith yesterday (chunks p26 s)
    ∧ (∀ ch ∈ chunks p26 s, ¬ occursIn p26 ch)
    ∧ joinWith p25 (chunks p25 (replaceAll p26 yesterday s)) = replaceAll p26 yesterday s
    ∧ correctTime yesterday twoDaysAgo s
        = joinWith twoDaysAgo (chunks p25 (replaceAll p26 yesterday s))
    ∧ (∀ ch ∈ chunks p25 (replaceAll p26 yesterday s), ¬ occursIn p25 ch) := by
  have h26 : p26 ≠ [] := by decide
  have h25 : p25 ≠ [] := by decide
  exact ⟨joinWith_chunks p26 h26 s,
    replaceAll_chunks p26 yesterday h26 s,
    chunks_no_occurrence p26 h26 s,
    joinWith_chunks p25 h25 _,
    replaceAll_chunks p25 twoDaysAgo h25 _,
    chunks_no_occurrence p25 h25 _⟩

/-- Witness for C7 at a concrete fixture fragment containing both dates. -/
theorem c7_correct_time_textual_witness :
    joinWith p26 (chunks p26 (str "a2017-01-26b2017-01-25c")) = str "a2017-01-26b2017-01-25c"
    ∧ replaceAll p26 (str "2024-05-02") (str "a2017-01-26b2017-01-25c")
        = joinWith (str "2024-05-02") (chunks p26 (str "a2017-01-26b2017-01-25c"))
    ∧ (∀ ch ∈ chunks p26 (str "a2017-01-26b2017-01-25c"), ¬ occursIn p26 ch)
    ∧ joinWith p25 (chunks p25 (replaceAll p26 (str "2024-05-02") (str "a2017-01-26b2017-01-25c")))
        = replaceAll p26 (str "2024-05-02") (str "a2017-01-26b2017-01-25c")
    ∧ correctTime (str "2024-05-02") (str "2024-05-01") (str "a2017-01-26b2017-01-25c")
        = joinWith (str "2024-05-01")
            (chunks p25 (replaceAll p26 (str "2024-05-02") (str "a2017-01-26b2017-01-25c")))
    ∧ (∀ ch ∈ chunks p25 (replaceAll p26 (str "2024-05-02") (str "a2017-01-26b2017-01-25c")),
        ¬ occursIn p25 ch) :=
  c7_correct_time_textual (str "2024-05-02") (str "2024-05-01") (str "a2017-01-26b2017-01-25c")

end JaegerSpec
